import Mathlib

/-!
# Verification of the xorxcpp Kademlia DHT core

Shallow embedding of the xorxcpp sources (`src/node.cpp`, `src/routing_table.cpp`,
`src/kademlia.cpp`, `src/dht_key.cpp`, `src/holepunch.cpp`, `src/utils.cpp`) and
proofs of the specified properties.

Conventions:
* a `uint8_t` byte is a `Nat` (< 256 where it matters);
* a `NodeID` (`std::array<uint8_t, 20>`) is a `List Nat` of its 20 bytes;
* machine-integer wraparound is modelled with explicit `% 2^w`;
* global time (`utils::getCurrentTimeMillis`) is passed as an explicit `now`
  parameter, and fallible C++ code (exceptions, `bool` + out-params) returns
  `Option`.
-/

namespace kademlia

/-- `KEY_BITS` from `node.h`. -/
def KEY_BITS : Nat := 160

/-- `KEY_BYTES` from `node.h` (160 / 8). -/
def KEY_BYTES : Nat := 20

/-- `K_VALUE` from `routing_table.h`. -/
def K_VALUE : Nat := 20

/-- `2^64`, the modulus of C++ `uint64_t` arithmetic. -/
def U64 : Nat := 18446744073709551616

/-- C++ `uint64_t` subtraction `a - b` (both operands already reduced mod `2^64`). -/
def u64sub (a b : Nat) : Nat := (a % U64 + U64 - b % U64) % U64

/-- `NodeID::distance` from `node.cpp`: byte-wise XOR. -/
def distance (a b : List Nat) : List Nat := List.zipWith Nat.xor a b

/-- `NodeID::getBit` from `node.cpp`: bit `7 - (pos % 8)` of byte `pos / 8`
(bit 0 is the most significant bit of byte 0).  The out-of-range `throw` never
fires inside the embedded code (all call sites use `pos < 160`), so the byte is
read with default 0. -/
def getBit (id : List Nat) (pos : Nat) : Bool :=
  (id.getD (pos / 8) 0 &&& (1 <<< (7 - pos % 8))) != 0

/-- `NodeID::operator<` from `node.cpp`: lexicographic order on the byte arrays
(`std::array::operator<`). -/
def idLt : List Nat → List Nat → Bool
  | [], [] => false
  | [], _ :: _ => true
  | _ :: _, [] => false
  | a :: as, b :: bs => if a < b then true else if b < a then false else idLt as bs

/-- Lower-case hex digit, as produced by `std::hex` formatting: code 48 + n
for a decimal digit, code 87 + n (so `'a'` for 10) above. -/
def hexChar (n : Nat) : Char :=
  Char.ofNat (if n < 10 then 48 + n else 87 + n)

/-- `ss << std::setw(2) << std::setfill('0') << std::hex << (int)byte` for a
`uint8_t` byte: exactly two lower-case hex digits. -/
def byteHexChars (b : Nat) : List Char := [hexChar (b / 16), hexChar (b % 16)]

/-- `NodeID::toString` from `node.cpp`: 40 lower-case hex digits. -/
def NodeID.toString (id : List Nat) : String :=
  String.mk (id.flatMap byteHexChars)

/-- `Node` from `node.h`: `{id, ip, port, lastSeen}`.  `last_seen` is a
`uint64_t` millisecond timestamp. -/
structure Node where
  id : List Nat
  ip : String
  port : Nat
  lastSeen : Nat
  deriving DecidableEq, Repr

/-- `Node::isActive` from `node.cpp`: seen within the last 15 minutes.
The C++ subtraction `getCurrentTimeMillis() - lastSeen_` is `uint64_t`. -/
def Node.isActive (now : Nat) (n : Node) : Bool :=
  u64sub now n.lastSeen < 15 * 60 * 1000

/-- A k-bucket's `std::list<NodePtr>`: head = least recently seen. -/
abbrev KBucket := List Node

/-- `KBucket::addNode` from `routing_table.cpp`.  Returns the new bucket
contents and the C++ `bool` result.  The `[]` arm of the final `match` is
unreachable: it is only entered when `nodes.length ≥ K_VALUE > 0`
(`nodes_.front()` in the source). -/
def KBucket.addNode (now : Nat) (nodes : KBucket) (node : Node) : KBucket × Bool :=
  if nodes.any (fun n => n.id == node.id) then
    (nodes.eraseP (fun n => n.id == node.id) ++ [node], true)
  else if nodes.length < K_VALUE then
    (nodes ++ [node], true)
  else
    match nodes with
    | [] => (nodes, false)
    | leastRecent :: rest =>
      if !(leastRecent.isActive now) then (rest ++ [node], true)
      else (nodes, false)

/-- `KBucket::getNode` from `routing_table.cpp`: first node with the given id. -/
def KBucket.getNode (nodes : KBucket) (id : List Nat) : Option Node :=
  nodes.find? (fun n => n.id == id)

/-- Outcome vocabulary of the spec's `add(peer)` (§4.2): `Accepted`,
`Replaced`, `Rejected`. -/
inductive AddOutcome where
  | Accepted
  | Replaced
  | Rejected
  deriving DecidableEq, Repr

/-- Modelled from the spec (§3): "A peer is *live* iff `now - last_seen < 15
minutes`", with mathematical subtraction on sane (`last_seen ≤ now`)
timestamps. -/
def Node.liveSpec (now : Nat) (n : Node) : Prop :=
  now - n.lastSeen < 15 * 60 * 1000

instance (now : Nat) (n : Node) : Decidable (Node.liveSpec now n) := by
  unfold Node.liveSpec; infer_instance

/-- Modelled from the spec (§4.2), for comparison with `KBucket.addNode`:
if present, move to tail and accept; else if `size < K`, append and accept;
else replace a non-live head (`Replaced`) or reject. -/
def addNodeSpec (now : Nat) (nodes : KBucket) (p : Node) : KBucket × AddOutcome :=
  if nodes.any (fun n => n.id == p.id) then
    (nodes.eraseP (fun n => n.id == p.id) ++ [p], AddOutcome.Accepted)
  else if nodes.length < K_VALUE then
    (nodes ++ [p], AddOutcome.Accepted)
  else
    match nodes with
    | [] => (nodes, AddOutcome.Rejected)
    | head :: rest =>
      if ¬ Node.liveSpec now head then (rest ++ [p], AddOutcome.Replaced)
      else (nodes, AddOutcome.Rejected)

end kademlia

namespace kademlia

/-- On sane timestamps the `uint64_t` subtraction in `Node::isActive` agrees
with mathematical subtraction, so `isActive` is the spec's liveness. -/
theorem isActive_eq_liveSpec (now : Nat) (n : Node) (hls : n.lastSeen ≤ now)
    (hnow : now < U64) : n.isActive now = true ↔ n.liveSpec now := by
  unfold Node.isActive Node.liveSpec u64sub U64 at *
  have h1 : now % 18446744073709551616 = now := Nat.mod_eq_of_lt hnow
  have h2 : n.lastSeen % 18446744073709551616 = n.lastSeen :=
    Nat.mod_eq_of_lt (Nat.lt_of_le_of_lt hls hnow)
  rw [h1, h2]
  have h3 : now + 18446744073709551616 - n.lastSeen
      = (now - n.lastSeen) + 18446744073709551616 := by omega
  rw [h3, Nat.add_mod_right, Nat.mod_eq_of_lt (by omega)]
  simp

end kademlia

namespace kademlia

/-- C1: `KBucket::addNode` follows the LRU-with-liveness-probe policy of the
spec's `add(peer)` (§4.2, P5): it computes the same bucket contents as the
spec's policy (move a present peer to the tail; append when `size < K = 20`;
replace a non-live head of a full bucket; otherwise leave the bucket
unchanged), and it accepts (`true`) exactly when the spec's outcome is
`Accepted` or `Replaced`.  Hypotheses: sane `uint64_t` timestamps
(`last_seen ≤ now < 2^64`). -/
theorem C1_kbucket_add_lru (now : Nat) (nodes : KBucket) (p : Node)
    (hts : ∀ n ∈ nodes, n.lastSeen ≤ now) (hnow : now < U64) :
    (KBucket.addNode now nodes p).1 = (addNodeSpec now nodes p).1 ∧
    ((KBucket.addNode now nodes p).2 = true ↔
      (addNodeSpec now nodes p).2 ≠ AddOutcome.Rejected) := by
  unfold KBucket.addNode addNodeSpec
  by_cases h1 : nodes.any (fun n => n.id == p.id) = true
  · simp [h1]
  · by_cases h2 : nodes.length < K_VALUE
    · simp [h1, h2]
    · cases nodes with
      | nil => exact absurd (by decide) h2
      | cons head rest =>
        simp only [List.length_cons] at h2
        have hhead : head.lastSeen ≤ now := hts head (by simp)
        have hact := isActive_eq_liveSpec now head hhead hnow
        by_cases h3 : head.isActive now = true
        · have hlive : Node.liveSpec now head := hact.mp h3
          simp [h1, h2, h3, hlive]
        · have hstale : ¬ Node.liveSpec now head := fun hl => h3 (hact.mpr hl)
          simp [h1, h2, h3, hstale]

/-- Witness for C1: a full bucket of 20 peers with a stale head (last seen at
time 0, now = 10^9 ms) accepts a newcomer by replacement. -/
theorem C1_kbucket_add_lru_witness :
    (KBucket.addNode 1000000000 ((List.range 20).map (fun i => ⟨[i], "x", 1, 0⟩))
        ⟨[99], "y", 2, 1000000000⟩).1 =
      (addNodeSpec 1000000000 ((List.range 20).map (fun i => ⟨[i], "x", 1, 0⟩))
        ⟨[99], "y", 2, 1000000000⟩).1 ∧
    ((KBucket.addNode 1000000000 ((List.range 20).map (fun i => ⟨[i], "x", 1, 0⟩))
        ⟨[99], "y", 2, 1000000000⟩).2 = true ↔
      (addNodeSpec 1000000000 ((List.range 20).map (fun i => ⟨[i], "x", 1, 0⟩))
        ⟨[99], "y", 2, 1000000000⟩).2 ≠ AddOutcome.Rejected) :=
  C1_kbucket_add_lru 1000000000 ((List.range 20).map (fun i => ⟨[i], "x", 1, 0⟩))
    ⟨[99], "y", 2, 1000000000⟩ (by decide) (by decide)

end kademlia

namespace kademlia

/-- The scanning loop of `RoutingTable::getBucketIndex` (`routing_table.cpp`):
starting at bit `i` with `fuel` iterations left, return the first bit position
whose distance bit is 1, falling through to `KEY_BITS - 1`.  The top-level call
uses `fuel = KEY_BITS`, so positions `0, …, 159` are scanned exactly as in the
C++ `for` loop. -/
def bitScan (d : List Nat) : Nat → Nat → Nat
  | _, 0 => KEY_BITS - 1
  | i, fuel + 1 => if getBit d i then i else bitScan d (i + 1) fuel

/-- `RoutingTable::getBucketIndex` from `routing_table.cpp`. -/
def getBucketIndex (localID id : List Nat) : Nat :=
  bitScan (distance localID id) 0 KEY_BITS

/-- `RoutingTable` from `routing_table.h`: local id plus 160 buckets. -/
structure RoutingTable where
  localID : List Nat
  buckets : List KBucket
  deriving DecidableEq, Repr

/-- `RoutingTable::addNode` from `routing_table.cpp`: refuse the local id,
otherwise delegate to bucket `getBucketIndex id`. -/
def RoutingTable.addNode (now : Nat) (rt : RoutingTable) (node : Node) :
    RoutingTable × Bool :=
  if node.id == rt.localID then (rt, false)
  else
    let bucketIndex := getBucketIndex rt.localID node.id
    let r := KBucket.addNode now (rt.buckets.getD bucketIndex []) node
    ({ rt with buckets := rt.buckets.set bucketIndex r.1 }, r.2)

/-- `RoutingTable::getNode` from `routing_table.cpp`: look up the id in bucket
`getBucketIndex id` only. -/
def RoutingTable.getNode (rt : RoutingTable) (id : List Nat) : Option Node :=
  KBucket.getNode (rt.buckets.getD (getBucketIndex rt.localID id) []) id

/-- `RoutingTable::getAllNodes` from `routing_table.cpp`: concatenation of all
buckets in index order. -/
def RoutingTable.getAllNodes (rt : RoutingTable) : List Node :=
  rt.buckets.flatten

/-- The non-strict ordering induced by the `utils::sortNodesByDistance`
comparator `distance(a.id, target) < distance(b.id, target)`: `a` may precede
`b` iff `b` does not compare strictly less than `a`. -/
abbrev distLe (targetID : List Nat) (a b : Node) : Prop :=
  ¬ idLt (distance b.id targetID) (distance a.id targetID) = true

/-- `utils::sortNodesByDistance` from `utils.cpp`: `std::sort` with the strict
comparator `distance(a.id, target) < distance(b.id, target)`.  `std::sort`
guarantees a permutation that is sorted with respect to the comparator; it is
modelled by insertion sort over the induced non-strict relation `distLe`.
(The result is independent of the sorting algorithm whenever the stored ids
are distinct, because XOR distances to a fixed target are then distinct.) -/
def sortNodesByDistance (nodes : List Node) (targetID : List Nat) : List Node :=
  List.insertionSort (distLe targetID) nodes

/-- `RoutingTable::findClosestNodes` from `routing_table.cpp`: collect all
buckets, sort by distance, truncate to `count` (`resize`). -/
def RoutingTable.findClosestNodes (rt : RoutingTable) (id : List Nat)
    (count : Nat) : List Node :=
  let closestNodes := rt.buckets.flatten
  let sorted := sortNodesByDistance closestNodes id
  if sorted.length > count then sorted.take count else sorted

end kademlia

namespace kademlia

/-- `bitScan` falls through to `KEY_BITS - 1` when no scanned bit is set. -/
theorem bitScan_of_all_false (d : List Nat) :
    ∀ fuel i, (∀ j, i ≤ j → j < i + fuel → getBit d j = false) →
      bitScan d i fuel = KEY_BITS - 1 := by
  intro fuel
  induction fuel with
  | zero => intro i _; rfl
  | succ fuel ih =>
    intro i h
    have h0 : getBit d i = false := h i (Nat.le_refl i) (by omega)
    have hstep : bitScan d i (fuel + 1)
        = if getBit d i then i else bitScan d (i + 1) fuel := rfl
    rw [hstep, if_neg (by simp [h0])]
    exact ih (i + 1) (fun j hj1 hj2 => h j (by omega) (by omega))

/-- `bitScan` returns the first set bit when one exists in the scanned window. -/
theorem bitScan_first (d : List Nat) :
    ∀ fuel i, (∃ j, i ≤ j ∧ j < i + fuel ∧ getBit d j = true) →
      getBit d (bitScan d i fuel) = true ∧ i ≤ bitScan d i fuel ∧
      ∀ j, i ≤ j → j < bitScan d i fuel → getBit d j = false := by
  intro fuel
  induction fuel with
  | zero =>
    rintro i ⟨j, h1, h2, _⟩
    omega
  | succ fuel ih =>
    rintro i ⟨j, hij, hjlt, hjbit⟩
    have hstep : bitScan d i (fuel + 1)
        = if getBit d i then i else bitScan d (i + 1) fuel := rfl
    by_cases h0 : getBit d i = true
    · rw [hstep, if_pos h0]
      exact ⟨h0, Nat.le_refl i, fun k hk1 hk2 => by omega⟩
    · have h0f : getBit d i = false := by simpa using h0
      rw [hstep, if_neg h0]
      have hj1 : i + 1 ≤ j := by
        rcases Nat.lt_or_ge i j with hl | hg
        · omega
        · have hje : i = j := by omega
          rw [← hje, h0f] at hjbit
          cases hjbit
      obtain ⟨b1, b2, b3⟩ := ih (i + 1) ⟨j, hj1, by omega, hjbit⟩
      refine ⟨b1, by omega, ?_⟩
      intro k hk1 hk2
      by_cases hk : k = i
      · rw [hk]; exact h0f
      · exact b3 k (by omega) hk2

/-- Reading a byte of a XOR distance. -/
theorem distance_getD : ∀ (a b : List Nat) (k : Nat), k < a.length → k < b.length →
    (distance a b).getD k 0 = (a.getD k 0) ^^^ (b.getD k 0) := by
  intro a
  induction a with
  | nil => intro b k h _; simp at h
  | cons x xs ih =>
    intro b k h1 h2
    cases b with
    | nil => simp at h2
    | cons y ys =>
      cases k with
      | zero => rfl
      | succ k =>
        have hstep : distance (x :: xs) (y :: ys) = (x ^^^ y) :: distance xs ys := rfl
        rw [hstep]
        simp only [List.getD_cons_succ]
        exact ih ys k (by simpa using h1) (by simpa using h2)

/-- Two byte lists of equal length agree when all `getD` reads agree. -/
theorem eq_of_getD_eq : ∀ (a b : List Nat), a.length = b.length →
    (∀ k, k < a.length → a.getD k 0 = b.getD k 0) → a = b := by
  intro a
  induction a with
  | nil =>
    intro b h _
    cases b with
    | nil => rfl
    | cons y ys => simp at h
  | cons x xs ih =>
    intro b hlen hk
    cases b with
    | nil => simp at hlen
    | cons y ys =>
      have h0 : x = y := by simpa using hk 0 (by simp)
      have ht : xs = ys := by
        refine ih ys (by simpa using hlen) ?_
        intro k hk2
        simpa using hk (k + 1) (by simpa using Nat.succ_lt_succ hk2)
      rw [h0, ht]

/-- Distinct well-formed 20-byte ids have a set bit in their XOR distance. -/
theorem exists_set_bit (L x : List Nat) (hL : L.length = KEY_BYTES)
    (hx : x.length = KEY_BYTES) (hLb : ∀ b ∈ L, b < 256) (hxb : ∀ b ∈ x, b < 256)
    (hne : x ≠ L) : ∃ j, j < KEY_BITS ∧ getBit (distance L x) j = true := by
  have hKB : KEY_BYTES = 20 := rfl
  have hdiff : ∃ k, k < KEY_BYTES ∧ (distance L x).getD k 0 ≠ 0 := by
    by_contra hc
    push_neg at hc
    apply hne
    apply eq_of_getD_eq x L (by rw [hx, hL])
    intro k hk
    rw [hx] at hk
    have h1 := hc k hk
    rw [distance_getD L x k (by omega) (by omega)] at h1
    have h2 : (L.getD k 0) ^^^ (x.getD k 0) = 0 := by omega
    exact (Nat.xor_eq_zero.mp h2).symm
  obtain ⟨k, hk, hv⟩ := hdiff
  have hGL : L.getD k 0 < 256 := by
    rw [List.getD_eq_getElem L 0 (by omega)]
    exact hLb _ (List.getElem_mem _)
  have hGx : x.getD k 0 < 256 := by
    rw [List.getD_eq_getElem x 0 (by omega)]
    exact hxb _ (List.getElem_mem _)
  have hvd : (distance L x).getD k 0 = (L.getD k 0) ^^^ (x.getD k 0) :=
    distance_getD L x k (by omega) (by omega)
  have h28 : (2 : Nat) ^ 8 = 256 := by norm_num
  have hGL8 : L.getD k 0 < 2 ^ 8 := by rw [h28]; exact hGL
  have hGx8 : x.getD k 0 < 2 ^ 8 := by rw [h28]; exact hGx
  have hvlt8 : (distance L x).getD k 0 < 2 ^ 8 := by
    rw [hvd]; exact Nat.xor_lt_two_pow hGL8 hGx8
  obtain ⟨m, hm1, _⟩ := Nat.exists_most_significant_bit hv
  have hm : m < 8 := by
    by_contra hm8
    push_neg at hm8
    have h256 : (distance L x).getD k 0 < 2 ^ m :=
      Nat.lt_of_lt_of_le hvlt8 (Nat.pow_le_pow_right (by omega) hm8)
    rw [Nat.testBit_eq_false_of_lt h256] at hm1
    cases hm1
  refine ⟨8 * k + (7 - m), ?_, ?_⟩
  · have hKb : KEY_BITS = 160 := rfl
    omega
  unfold getBit
  have hdiv : (8 * k + (7 - m)) / 8 = k := by omega
  have hmod : 7 - (8 * k + (7 - m)) % 8 = m := by omega
  rw [hdiv, hmod, Nat.shiftLeft_eq, Nat.one_mul, Nat.and_two_pow, hm1]
  simp [Nat.pos_iff_ne_zero.mp (Nat.two_pow_pos m)]

/-- C2: `RoutingTable::getBucketIndex(x)` is the 0-based MSB-first position of
the first 1-bit of the XOR distance `d(L, x)` (its index bears a set bit and
all earlier bit positions are clear), and equals 159 when the distance is zero
(`x = L`).  Hypotheses: both ids are well-formed 20-byte arrays. -/
theorem C2_bucket_index (L x : List Nat) (hL : L.length = KEY_BYTES)
    (hx : x.length = KEY_BYTES) (hLb : ∀ b ∈ L, b < 256) (hxb : ∀ b ∈ x, b < 256) :
    (x ≠ L →
      getBit (distance L x) (getBucketIndex L x) = true ∧
      ∀ j, j < getBucketIndex L x → getBit (distance L x) j = false) ∧
    (x = L → getBucketIndex L x = 159) := by
  constructor
  · intro hne
    obtain ⟨j, hj, hbit⟩ := exists_set_bit L x hL hx hLb hxb hne
    obtain ⟨b1, _, b3⟩ := bitScan_first (distance L x) KEY_BITS 0 ⟨j, by omega, by
      have : KEY_BITS = 160 := rfl
      omega, hbit⟩
    exact ⟨b1, fun j' h1 => b3 j' (by omega) h1⟩
  · intro heq
    subst heq
    unfold getBucketIndex
    have hz : ∀ j, 0 ≤ j → j < 0 + KEY_BITS → getBit (distance x x) j = false := by
      intro j _ _
      unfold getBit
      have h0 : (distance x x).getD (j / 8) 0 = 0 := by
        by_cases hjl : j / 8 < (distance x x).length
        · have hlen : (distance x x).length = x.length := by
            simp [distance]
          rw [distance_getD x x (j / 8) (by omega) (by omega)]
          exact Nat.xor_self _
        · exact List.getD_eq_default _ _ (by omega)
      rw [h0]
      simp
    rw [bitScan_of_all_false (distance x x) KEY_BITS 0 hz]
    decide

/-- Witness for C2, covering the spec's literal placements with `L = 00…00`:
peer `80…00` lands in bucket 0, `40…00` in bucket 1, `00…01` in bucket 159. -/
theorem C2_bucket_index_witness :
    ((128 :: List.replicate 19 (0 : Nat)) ≠ List.replicate 20 0 →
      getBit (distance (List.replicate 20 0) (128 :: List.replicate 19 0))
        (getBucketIndex (List.replicate 20 0) (128 :: List.replicate 19 0)) = true ∧
      ∀ j, j < getBucketIndex (List.replicate 20 0) (128 :: List.replicate 19 0) →
        getBit (distance (List.replicate 20 0) (128 :: List.replicate 19 0)) j = false) ∧
    ((128 :: List.replicate 19 (0 : Nat)) = List.replicate 20 0 →
      getBucketIndex (List.replicate 20 0) (128 :: List.replicate 19 0) = 159) ∧
    getBucketIndex (List.replicate 20 0) (128 :: List.replicate 19 0) = 0 ∧
    getBucketIndex (List.replicate 20 0) (64 :: List.replicate 19 0) = 1 ∧
    getBucketIndex (List.replicate 20 0) (List.replicate 19 0 ++ [1]) = 159 :=
  ⟨(C2_bucket_index (List.replicate 20 0) (128 :: List.replicate 19 0)
      (by decide) (by decide) (by decide) (by decide)).1,
   (C2_bucket_index (List.replicate 20 0) (128 :: List.replicate 19 0)
      (by decide) (by decide) (by decide) (by decide)).2,
   by decide, by decide, by decide⟩

end kademlia

namespace kademlia

/-- `idLt` is irreflexive. -/
theorem idLt_irrefl : ∀ a : List Nat, idLt a a = false := by
  intro a
  induction a with
  | nil => rfl
  | cons x xs ih => simp [idLt, ih]

/-- `idLt` is transitive. -/
theorem idLt_trans : ∀ a b c : List Nat,
    idLt a b = true → idLt b c = true → idLt a c = true := by
  intro a
  induction a with
  | nil =>
    intro b c hab hbc
    cases b with
    | nil => simp [idLt] at hab
    | cons y ys =>
      cases c with
      | nil => simp [idLt] at hbc
      | cons z zs => simp [idLt]
  | cons x xs ih =>
    intro b c hab hbc
    cases b with
    | nil => simp [idLt] at hab
    | cons y ys =>
      cases c with
      | nil => simp [idLt] at hbc
      | cons z zs =>
        simp only [idLt] at hab hbc ⊢
        split_ifs at hab hbc ⊢ <;>
          first
          | rfl
          | omega
          | exact ih ys zs hab hbc

/-- Lists unrelated by `idLt` in either direction are equal. -/
theorem idLt_eq_of_not_lt : ∀ a b : List Nat,
    idLt a b = false → idLt b a = false → a = b := by
  intro a
  induction a with
  | nil =>
    intro b h1 _
    cases b with
    | nil => rfl
    | cons y ys => simp [idLt] at h1
  | cons x xs ih =>
    intro b h1 h2
    cases b with
    | nil => simp [idLt] at h2
    | cons y ys =>
      simp only [idLt] at h1 h2
      split_ifs at h1 h2 with hxy hyx <;> try simp_all
      have hx : x = y := by omega
      have hs : xs = ys := ih ys (by assumption) (by assumption)
      simp [hx, hs]

/-- Equal XOR distances to a common well-formed target force equal ids. -/
theorem id_eq_of_distance_eq (t u v : List Nat) (hu : u.length = KEY_BYTES)
    (hv : v.length = KEY_BYTES) (ht : t.length = KEY_BYTES)
    (h : distance u t = distance v t) : u = v := by
  apply eq_of_getD_eq u v (hu.trans hv.symm)
  intro k hk
  have h1 : (distance u t).getD k 0 = (distance v t).getD k 0 := by rw [h]
  rw [distance_getD u t k (by omega) (by omega),
    distance_getD v t k (by omega) (by omega)] at h1
  exact Nat.xor_left_inj.mp h1

end kademlia

namespace kademlia

instance (t : List Nat) : IsTotal Node (distLe t) := ⟨by
  intro a b
  by_cases h : idLt (distance b.id t) (distance a.id t) = true
  · right
    intro h2
    have h3 := idLt_trans _ _ _ h2 h
    rw [idLt_irrefl] at h3
    cases h3
  · left
    exact h⟩

instance (t : List Nat) : IsTrans Node (distLe t) := ⟨by
  intro a b c hab hbc h
  by_cases h2 : idLt (distance a.id t) (distance b.id t) = true
  · exact hbc (idLt_trans _ _ _ h h2)
  · have hba : idLt (distance b.id t) (distance a.id t) = false := by
      cases hx : idLt (distance b.id t) (distance a.id t)
      · rfl
      · exact absurd hx hab
    have habf : idLt (distance a.id t) (distance b.id t) = false := by
      cases hx : idLt (distance a.id t) (distance b.id t)
      · rfl
      · exact absurd hx h2
    have heq : distance a.id t = distance b.id t := idLt_eq_of_not_lt _ _ habf hba
    rw [heq] at h
    exact hbc h⟩

/-- C3: `RoutingTable::findClosestNodes(target, count)` returns a prefix of
the peers of all buckets sorted ascending by XOR distance to `target` (ties —
which can only arise between equal ids — are compatible with lexicographic
id order), and its length is exactly `min count total`.  Hypotheses: stored
ids and the target are well-formed 20-byte arrays. -/
theorem C3_find_closest (rt : RoutingTable) (target : List Nat) (count : Nat)
    (hids : ∀ n ∈ rt.getAllNodes, n.id.length = KEY_BYTES)
    (ht : target.length = KEY_BYTES) :
    (rt.findClosestNodes target count).length = min count rt.getAllNodes.length ∧
    ∃ full : List Node,
      full.Perm rt.getAllNodes ∧
      rt.findClosestNodes target count = full.take count ∧
      List.Pairwise (fun a b =>
        idLt (distance a.id target) (distance b.id target) = true ∨
        (distance a.id target = distance b.id target ∧
          (idLt a.id b.id = true ∨ a.id = b.id))) full := by
  have hAll : rt.getAllNodes = rt.buckets.flatten := rfl
  have hperm : (sortNodesByDistance rt.buckets.flatten target).Perm
      rt.buckets.flatten := List.perm_insertionSort _ _
  have hsorted : List.Sorted (distLe target)
      (sortNodesByDistance rt.buckets.flatten target) :=
    List.sorted_insertionSort _ _
  have hlen : (sortNodesByDistance rt.buckets.flatten target).length
      = rt.buckets.flatten.length := hperm.length_eq
  have hfc : rt.findClosestNodes target count
      = if (sortNodesByDistance rt.buckets.flatten target).length > count
        then (sortNodesByDistance rt.buckets.flatten target).take count
        else sortNodesByDistance rt.buckets.flatten target := rfl
  have hpw : List.Pairwise (fun a b =>
      idLt (distance a.id target) (distance b.id target) = true ∨
      (distance a.id target = distance b.id target ∧
        (idLt a.id b.id = true ∨ a.id = b.id)))
      (sortNodesByDistance rt.buckets.flatten target) := by
    apply List.Pairwise.imp_of_mem ?_ hsorted
    intro a b ha hb hr
    by_cases h2 : idLt (distance a.id target) (distance b.id target) = true
    · exact Or.inl h2
    · have h2f : idLt (distance a.id target) (distance b.id target) = false := by
        cases hx : idLt (distance a.id target) (distance b.id target)
        · rfl
        · exact absurd hx h2
      have hbf : idLt (distance b.id target) (distance a.id target) = false := by
        cases hx : idLt (distance b.id target) (distance a.id target)
        · rfl
        · exact absurd hx hr
      have heq : distance a.id target = distance b.id target :=
        idLt_eq_of_not_lt _ _ h2f hbf
      have hida : a.id.length = KEY_BYTES := hids a (hperm.subset ha)
      have hidb : b.id.length = KEY_BYTES := hids b (hperm.subset hb)
      exact Or.inr ⟨heq, Or.inr (id_eq_of_distance_eq target a.id b.id hida hidb ht heq)⟩
  refine ⟨?_, sortNodesByDistance rt.buckets.flatten target, ?_, ?_, hpw⟩
  · rw [hfc, hAll]
    by_cases hgt : (sortNodesByDistance rt.buckets.flatten target).length > count
    · rw [if_pos hgt, List.length_take, hlen]
    · rw [if_neg hgt, ← hlen]
      omega
  · rw [hAll]
    exact hperm
  · rw [hfc]
    by_cases hgt : (sortNodesByDistance rt.buckets.flatten target).length > count
    · rw [if_pos hgt]
    · rw [if_neg hgt]
      exact (List.take_of_length_le (by omega)).symm

/-- Concrete routing table for the C3 witness: local id `00…00`, three peers
with ids `00…02`, `00…04`, `00…01` scattered over buckets (the spec's
closest-k ordering scenario). -/
def c3TableW : RoutingTable :=
  ⟨List.replicate 20 0,
   [[⟨List.replicate 19 0 ++ [2], "b", 2, 0⟩],
    [⟨List.replicate 19 0 ++ [4], "c", 3, 0⟩],
    [⟨List.replicate 19 0 ++ [1], "a", 1, 0⟩]]⟩

/-- Witness for C3 at the spec's closest-k scenario: `closest(00…00, 3)`
returns the peers ordered `00…01`, `00…02`, `00…04`. -/
theorem C3_find_closest_witness :
    ((c3TableW.findClosestNodes (List.replicate 20 0) 3).length
        = min 3 c3TableW.getAllNodes.length ∧
      ∃ full : List Node,
        full.Perm c3TableW.getAllNodes ∧
        c3TableW.findClosestNodes (List.replicate 20 0) 3 = full.take 3 ∧
        List.Pairwise (fun a b =>
          idLt (distance a.id (List.replicate 20 0))
              (distance b.id (List.replicate 20 0)) = true ∨
          (distance a.id (List.replicate 20 0)
              = distance b.id (List.replicate 20 0) ∧
            (idLt a.id b.id = true ∨ a.id = b.id))) full) ∧
    c3TableW.findClosestNodes (List.replicate 20 0) 3
      = [⟨List.replicate 19 0 ++ [1], "a", 1, 0⟩,
         ⟨List.replicate 19 0 ++ [2], "b", 2, 0⟩,
         ⟨List.replicate 19 0 ++ [4], "c", 3, 0⟩] :=
  ⟨C3_find_closest c3TableW (List.replicate 20 0) 3 (by decide) (by decide), by decide⟩

end kademlia

namespace kademlia

/-- The `storage_` map of `Kademlia` (`std::unordered_map<std::string,
std::vector<uint8_t>>`), modelled as an association list with unique keys. -/
abbrev Storage := List (String × List Nat)

/-- The `storageTimestamps_` map of `Kademlia` (`std::unordered_map<std::string,
uint64_t>`). -/
abbrev Timestamps := List (String × Nat)

/-- Keyed lookup (`map.find(k)`). -/
def mapFind {α : Type} (m : List (String × α)) (k : String) : Option α :=
  (m.find? (fun p => p.1 == k)).map (fun p => p.2)

/-- Keyed upsert (`map[k] = v`): replace the entry if the key is present,
otherwise append. -/
def mapInsert {α : Type} (m : List (String × α)) (k : String) (v : α) :
    List (String × α) :=
  if m.any (fun p => p.1 == k) then
    m.map (fun p => if p.1 == k then (k, v) else p)
  else
    m ++ [(k, v)]

/-- `DHTKey::toString` from `dht_key.cpp`: the raw characters when every byte
is printable ASCII (`32 ≤ b ≤ 126`) and the key is non-empty, else `0x`
followed by lower-case hex. -/
def DHTKey.toString (data : List Nat) : String :=
  if data.all (fun b => decide (32 ≤ b) && decide (b ≤ 126)) && !data.isEmpty then
    String.mk (data.map (fun b => Char.ofNat b))
  else
    "0x" ++ String.mk (data.flatMap byteHexChars)

/-- The split performed by the STORE branch of `Kademlia::handleRPC`
(`kademlia.cpp`): key = first `size/2` payload bytes, value = the rest. -/
def splitStorePayload (payload : List Nat) : List Nat × List Nat :=
  (payload.take (payload.length / 2), payload.drop (payload.length / 2))

/-- The STORE payload built by `Kademlia::store` (`kademlia.cpp`): key bytes
followed by value bytes, no length prefix. -/
def storePayload (key value : List Nat) : List Nat := key ++ value

/-- The STORE branch of `Kademlia::handleRPC`: split the payload at the
halfway point and upsert the record into both maps with the current time. -/
def handleStoreRPC (now : Nat) (storage : Storage) (timestamps : Timestamps)
    (payload : List Nat) : Storage × Timestamps :=
  let kv := splitStorePayload payload
  let ks := DHTKey.toString kv.1
  (mapInsert storage ks kv.2, mapInsert timestamps ks now)

/-- The local-store lookup of `Kademlia::findValue` / the FIND_VALUE handler:
`storage_.find(key.toString())`. -/
def findValueLocal (storage : Storage) (keyData : List Nat) : Option (List Nat) :=
  mapFind storage (DHTKey.toString keyData)

/-- `Kademlia::expireKeys` from `kademlia.cpp`: collect the keys whose
`uint64_t` age exceeds 24 h, then erase them from both maps. -/
def expireKeys (now : Nat) (storage : Storage) (timestamps : Timestamps) :
    Storage × Timestamps :=
  let EXPIRE_THRESHOLD := 24 * 60 * 60 * 1000
  let keysToRemove :=
    (timestamps.filter (fun kt => u64sub now kt.2 > EXPIRE_THRESHOLD)).map
      (fun kt => kt.1)
  (storage.filter (fun kv => !(keysToRemove.contains kv.1)),
   timestamps.filter (fun kt => !(keysToRemove.contains kt.1)))

end kademlia

namespace kademlia

/-- `uint64_t` subtraction agrees with `Nat` subtraction on sane operands. -/
theorem u64sub_eq_sub (a b : Nat) (hb : b ≤ a) (ha : a < U64) :
    u64sub a b = a - b := by
  unfold u64sub U64 at *
  omega

/-- Looking up the upserted key returns the new value. -/
theorem mapFind_mapInsert_self {α : Type} :
    ∀ (m : List (String × α)) (k : String) (v : α),
      mapFind (mapInsert m k v) k = some v := by
  intro m k v
  induction m with
  | nil => simp [mapInsert, mapFind]
  | cons p ps ih =>
    by_cases hpk : p.1 = k
    · have hany : (p :: ps).any (fun q => q.1 == k) = true := by simp [hpk]
      have h1 : mapInsert (p :: ps) k v
          = (k, v) :: ps.map (fun q => if q.1 == k then (k, v) else q) := by
        simp only [mapInsert, hany, if_true, List.map_cons]
        simp [hpk]
      rw [h1]
      simp [mapFind]
    · have hany : (p :: ps).any (fun q => q.1 == k) = ps.any (fun q => q.1 == k) := by
        simp [List.any_cons, hpk]
      cases han : ps.any (fun q => q.1 == k) with
      | true =>
        have h1 : mapInsert (p :: ps) k v
            = p :: ps.map (fun q => if q.1 == k then (k, v) else q) := by
          simp only [mapInsert, hany, han, if_true, List.map_cons]
          simp [hpk]
        have h2 : mapInsert ps k v
            = ps.map (fun q => if q.1 == k then (k, v) else q) := by
          simp [mapInsert, han]
        rw [h1]
        rw [h2] at ih
        simpa [mapFind, List.find?_cons, hpk] using ih
      | false =>
        have h1 : mapInsert (p :: ps) k v = p :: (ps ++ [(k, v)]) := by
          simp only [mapInsert, hany, han, Bool.false_eq_true, if_false, List.cons_append]
        have h2 : mapInsert ps k v = ps ++ [(k, v)] := by
          simp [mapInsert, han]
        rw [h1]
        rw [h2] at ih
        simpa [mapFind, List.find?_cons, hpk] using ih

/-- Filtering out a key set behaves as deletion with respect to lookup. -/
theorem mapFind_filter_out {α : Type} (R : List String) :
    ∀ (m : List (String × α)) (k : String),
      mapFind (m.filter (fun p => !(R.contains p.1))) k
        = if R.contains k then none else mapFind m k := by
  intro m k
  induction m with
  | nil =>
    cases hR : R.contains k <;> simp [mapFind, hR]
  | cons p ps ih =>
    by_cases hpk : p.1 == k
    · have hk : p.1 = k := eq_of_beq hpk
      cases hR : R.contains k with
      | true =>
        have hRp : R.contains p.1 = true := by rw [hk]; exact hR
        rw [List.filter_cons]
        simp only [hRp, Bool.not_true, Bool.false_eq_true, if_false]
        rw [ih, hR]
        simp
      | false =>
        have hRp : R.contains p.1 = false := by rw [hk]; exact hR
        rw [List.filter_cons]
        simp only [hRp, Bool.not_false, if_true]
        simp [mapFind, List.find?_cons, hpk, hR]
    · cases hRp : R.contains p.1 with
      | true =>
        rw [List.filter_cons]
        simp only [hRp, Bool.not_true, Bool.false_eq_true, if_false]
        rw [ih]
        cases hR : R.contains k with
        | true => simp
        | false => simp [mapFind, List.find?_cons, hpk]
      | false =>
        rw [List.filter_cons]
        simp only [hRp, Bool.not_false, if_true]
        cases hR : R.contains k with
        | true =>
          simp only [mapFind, List.find?_cons, hpk]
          have := ih
          rw [hR] at this
          simpa [mapFind, hpk] using this
        | false =>
          have := ih
          rw [hR] at this
          simp only [mapFind, List.find?_cons, hpk] at this ⊢
          simpa [mapFind, hpk] using this

end kademlia

namespace kademlia

/-- C5: `Kademlia::expireKeys` removes exactly the records older than 24 h:
any key with a timestamp satisfying `now - inserted > 24h` disappears from
both the value map and the timestamp map, and any key all of whose timestamps
are younger keeps its lookup result unchanged in both maps.  Hypotheses: sane
`uint64_t` timestamps (`inserted ≤ now < 2^64`). -/
theorem C5_expire_exact (now : Nat) (storage : Storage) (timestamps : Timestamps)
    (hsane : ∀ kt ∈ timestamps, kt.2 ≤ now) (hnow : now < U64) :
    (∀ k ts, (k, ts) ∈ timestamps → now - ts > 24 * 60 * 60 * 1000 →
      mapFind (expireKeys now storage timestamps).1 k = none ∧
      mapFind (expireKeys now storage timestamps).2 k = none) ∧
    (∀ k, (∀ ts, (k, ts) ∈ timestamps → now - ts ≤ 24 * 60 * 60 * 1000) →
      mapFind (expireKeys now storage timestamps).1 k = mapFind storage k ∧
      mapFind (expireKeys now storage timestamps).2 k = mapFind timestamps k) := by
  have hu : ∀ kt ∈ timestamps, u64sub now kt.2 = now - kt.2 :=
    fun kt hkt => u64sub_eq_sub now kt.2 (hsane kt hkt) hnow
  set T : Nat := 24 * 60 * 60 * 1000 with hT
  set R := (timestamps.filter (fun kt => u64sub now kt.2 > T)).map (fun kt => kt.1)
    with hR
  have he1 : (expireKeys now storage timestamps).1
      = storage.filter (fun kv => !(R.contains kv.1)) := rfl
  have he2 : (expireKeys now storage timestamps).2
      = timestamps.filter (fun kt => !(R.contains kt.1)) := rfl
  have hRmem : ∀ k : String, R.contains k = true ↔
      ∃ ts, (k, ts) ∈ timestamps ∧ u64sub now ts > T := by
    intro k
    rw [hR]
    constructor
    · intro h
      have hmem : k ∈ (timestamps.filter
          (fun kt => u64sub now kt.2 > T)).map (fun kt => kt.1) := by simpa using h
      obtain ⟨p, hp, hpk⟩ := List.mem_map.mp hmem
      obtain ⟨hpl, hpf⟩ := List.mem_filter.mp hp
      refine ⟨p.2, ?_, by simpa using hpf⟩
      rw [← hpk]
      simpa using hpl
    · rintro ⟨ts, hmem, hgt⟩
      have hmap : k ∈ (timestamps.filter
          (fun kt => u64sub now kt.2 > T)).map (fun kt => kt.1) :=
        List.mem_map.mpr ⟨(k, ts), List.mem_filter.mpr ⟨hmem, by simpa using hgt⟩, rfl⟩
      simpa using hmap
  constructor
  · intro k ts hmem hold
    have hcont : R.contains k = true := by
      refine (hRmem k).mpr ⟨ts, hmem, ?_⟩
      rw [hu (k, ts) hmem]
      exact hold
    constructor
    · rw [he1, mapFind_filter_out, hcont]
      simp
    · rw [he2, mapFind_filter_out, hcont]
      simp
  · intro k hyoung
    have hcont : R.contains k = false := by
      cases hc : R.contains k
      · rfl
      · obtain ⟨ts, hmem, hgt⟩ := (hRmem k).mp hc
        rw [hu (k, ts) hmem] at hgt
        have := hyoung ts hmem
        omega
    constructor
    · rw [he1, mapFind_filter_out, hcont]
      simp
    · rw [he2, mapFind_filter_out, hcont]
      simp

/-- Witness for C5: one record inserted at time 0, expiry run at 24 h + 1 ms;
the record is removed from both maps and a younger key is untouched. -/
theorem C5_expire_exact_witness :
    (∀ k ts, (k, ts) ∈ ([("k", 0), ("f", 86400000)] : Timestamps) →
      86400001 - ts > 24 * 60 * 60 * 1000 →
      mapFind (expireKeys 86400001 [("k", [1]), ("f", [2])]
        [("k", 0), ("f", 86400000)]).1 k = none ∧
      mapFind (expireKeys 86400001 [("k", [1]), ("f", [2])]
        [("k", 0), ("f", 86400000)]).2 k = none) ∧
    (∀ k, (∀ ts, (k, ts) ∈ ([("k", 0), ("f", 86400000)] : Timestamps) →
      86400001 - ts ≤ 24 * 60 * 60 * 1000) →
      mapFind (expireKeys 86400001 [("k", [1]), ("f", [2])]
        [("k", 0), ("f", 86400000)]).1 k
        = mapFind [("k", [1]), ("f", [2])] k ∧
      mapFind (expireKeys 86400001 [("k", [1]), ("f", [2])]
        [("k", 0), ("f", 86400000)]).2 k
        = mapFind [("k", 0), ("f", 86400000)] k) :=
  C5_expire_exact 86400001 [("k", [1]), ("f", [2])] [("k", 0), ("f", 86400000)]
    (by decide) (by decide)

end kademlia

namespace kademlia

/-- Counterexample for C6: the claim's "recovered exactly when key and value
have equal length" fails — a 1-byte key with a 2-byte value also splits back
into the original pair (`halfSize = 3 / 2 = 1`). -/
theorem C6_store_split_counterexample :
    splitStorePayload (storePayload [0] [7, 8]) = ([0], [7, 8]) ∧
    ¬ (([7, 8] : List Nat).length = ([0] : List Nat).length) := by decide

/-- C6 (amended): the STORE handler splits the payload at the halfway point
(first half key, rest value) and upserts the record with the current
timestamp; the sender concatenates key and value; the original pair is
recovered if and only if the value is as long as the key or exactly one byte
longer — in particular whenever key and value have equal length. -/
theorem C6_store_split_amended (key value : List Nat) :
    (value.length = key.length ∨ value.length = key.length + 1 →
      splitStorePayload (storePayload key value) = (key, value)) ∧
    (splitStorePayload (storePayload key value) = (key, value) →
      value.length = key.length ∨ value.length = key.length + 1) ∧
    (value.length = key.length →
      ∀ (now : Nat) (storage : Storage) (timestamps : Timestamps),
        mapFind (handleStoreRPC now storage timestamps (storePayload key value)).1
          (DHTKey.toString key) = some value ∧
        mapFind (handleStoreRPC now storage timestamps (storePayload key value)).2
          (DHTKey.toString key) = some now) := by
  have hlenp : (storePayload key value).length = key.length + value.length := by
    simp [storePayload]
  have hsplit : value.length = key.length ∨ value.length = key.length + 1 →
      splitStorePayload (storePayload key value) = (key, value) := by
    intro h
    have hhalf : (storePayload key value).length / 2 = key.length := by omega
    unfold splitStorePayload
    rw [hhalf]
    unfold storePayload
    rw [List.take_left, List.drop_left]
  refine ⟨hsplit, ?_, ?_⟩
  · intro hs
    have h1 := congrArg Prod.snd hs
    simp only [splitStorePayload] at h1
    have h2 := congrArg List.length h1
    rw [List.length_drop] at h2
    rw [hlenp] at h2
    omega
  · intro hlen now storage timestamps
    have hs := hsplit (Or.inl hlen)
    have he : handleStoreRPC now storage timestamps (storePayload key value)
        = (mapInsert storage (DHTKey.toString key) value,
           mapInsert timestamps (DHTKey.toString key) now) := by
      unfold handleStoreRPC
      rw [hs]
    rw [he]
    exact ⟨mapFind_mapInsert_self _ _ _, mapFind_mapInsert_self _ _ _⟩

/-- Witness for C6 at the equal-length pair key = "hi", value = "wo": the
split recovers the pair and both maps hold the record afterwards. -/
theorem C6_store_split_amended_witness :
    splitStorePayload (storePayload [104, 105] [119, 111]) = ([104, 105], [119, 111]) ∧
    mapFind (handleStoreRPC 5 [] [] (storePayload [104, 105] [119, 111])).1
      (DHTKey.toString [104, 105]) = some [119, 111] ∧
    mapFind (handleStoreRPC 5 [] [] (storePayload [104, 105] [119, 111])).2
      (DHTKey.toString [104, 105]) = some 5 :=
  ⟨(C6_store_split_amended [104, 105] [119, 111]).1 (Or.inl rfl),
   ((C6_store_split_amended [104, 105] [119, 111]).2.2 rfl 5 [] []).1,
   ((C6_store_split_amended [104, 105] [119, 111]).2.2 rfl 5 [] []).2⟩

/-- C10: `DHTKey::toString` is not injective — the six printable bytes
`"0x0061"` and the two bytes `{0x00, 0x61}` print identically — and since the
local store is keyed by the printable form, a record stored under one key is
found (and overwritten) via the other. -/
theorem C10_dhtkey_printable_collision :
    DHTKey.toString [48, 120, 48, 48, 54, 49] = DHTKey.toString [0, 97] ∧
    ([48, 120, 48, 48, 54, 49] : List Nat) ≠ [0, 97] ∧
    DHTKey.toString [48, 120, 48, 48, 54, 49] = "0x0061" ∧
    (∀ (storage : Storage) (v : List Nat),
      findValueLocal (mapInsert storage (DHTKey.toString [48, 120, 48, 48, 54, 49]) v)
        [0, 97] = some v) ∧
    (∀ (storage : Storage) (v1 v2 : List Nat),
      findValueLocal (mapInsert
        (mapInsert storage (DHTKey.toString [48, 120, 48, 48, 54, 49]) v1)
        (DHTKey.toString [0, 97]) v2) [48, 120, 48, 48, 54, 49] = some v2) := by
  have hs : DHTKey.toString [0, 97] = DHTKey.toString [48, 120, 48, 48, 54, 49] := by
    decide
  refine ⟨by decide, by decide, by decide, ?_, ?_⟩
  · intro storage v
    unfold findValueLocal
    rw [hs]
    exact mapFind_mapInsert_self _ _ _
  · intro storage v1 v2
    unfold findValueLocal
    rw [← hs]
    exact mapFind_mapInsert_self _ _ _

end kademlia

namespace kademlia

/-- `RPCType` from `kademlia.h` (enum values 0…5 in declaration order). -/
inductive RPCType where
  | PING
  | STORE
  | FIND_NODE
  | FIND_VALUE
  | HOLE_PUNCH_REQUEST
  | HOLE_PUNCH_RESPONSE
  deriving DecidableEq, Repr

/-- The integer value of an `RPCType` (`static_cast<int>`). -/
def RPCType.toInt : RPCType → Nat
  | .PING => 0
  | .STORE => 1
  | .FIND_NODE => 2
  | .FIND_VALUE => 3
  | .HOLE_PUNCH_REQUEST => 4
  | .HOLE_PUNCH_RESPONSE => 5

/-- `RPCMessage` from `kademlia.h`. -/
structure RPCMessage where
  type : RPCType
  sender : List Nat
  receiver : List Nat
  senderIP : String
  senderPort : Nat
  payload : List Nat
  deriving DecidableEq, Repr

/-- The wire text built by `Kademlia::sendRPC`:
`"<type>:<sender-hex>:<receiver-hex>:<ip>:<port>:<payload>"`. -/
def serializeRPC (m : RPCMessage) : String :=
  toString m.type.toInt ++ ":" ++ NodeID.toString m.sender ++ ":"
    ++ NodeID.toString m.receiver ++ ":" ++ m.senderIP ++ ":"
    ++ toString m.senderPort ++ ":" ++ String.mk (m.payload.map Char.ofNat)

/-- A UDP datagram handed to `sendto`. -/
structure Datagram where
  destIP : String
  destPort : Nat
  data : String
  deriving DecidableEq, Repr

/-- `Kademlia::sendRPC` from `kademlia.cpp`.  Socket creation and the
`sendto` outcome are environmental; the deterministic core resolves
`message.receiver` through the routing table: `none` models `return false`
with nothing sent (the `!receiver` early exit), `some d` the attempt to send
datagram `d` to the stored peer's endpoint. -/
def sendRPC (rt : RoutingTable) (m : RPCMessage) : Option Datagram :=
  match RoutingTable.getNode rt m.receiver with
  | none => none
  | some receiver => some ⟨receiver.ip, receiver.port, serializeRPC m⟩

/-- A successful `RoutingTable::getNode` returns a stored peer bearing the
requested id. -/
theorem getNode_some_mem (rt : RoutingTable) (i : List Nat) (n : Node)
    (hg : RoutingTable.getNode rt i = some n) :
    n ∈ rt.getAllNodes ∧ n.id = i := by
  unfold RoutingTable.getNode KBucket.getNode at hg
  have hid : n.id = i := by simpa using List.find?_some hg
  have hmem : n ∈ rt.buckets.getD (getBucketIndex rt.localID i) [] :=
    List.mem_of_find?_eq_some hg
  refine ⟨?_, hid⟩
  unfold RoutingTable.getAllNodes
  by_cases hrange : getBucketIndex rt.localID i < rt.buckets.length
  · rw [List.getD_eq_getElem _ _ hrange] at hmem
    exact List.mem_flatten.mpr ⟨_, List.getElem_mem _, hmem⟩
  · rw [List.getD_eq_default _ _ (by omega)] at hmem
    simp at hmem

/-- C9: `Kademlia::sendRPC` resolves the destination through the routing
table: when no stored peer bears `message.receiver`, it returns `false`
without sending anything; when it does send, the datagram goes to the ip:port
of a peer currently held in the routing table under that id. -/
theorem C9_sendRPC_requires_known_peer (rt : RoutingTable) (m : RPCMessage) :
    ((∀ n ∈ rt.getAllNodes, n.id ≠ m.receiver) → sendRPC rt m = none) ∧
    (∀ d, sendRPC rt m = some d →
      ∃ n, n ∈ rt.getAllNodes ∧ n.id = m.receiver ∧
        d.destIP = n.ip ∧ d.destPort = n.port) := by
  constructor
  · intro hno
    unfold sendRPC
    cases hg : RoutingTable.getNode rt m.receiver with
    | none => rfl
    | some n =>
      obtain ⟨hmem, hid⟩ := getNode_some_mem rt m.receiver n hg
      exact absurd hid (hno n hmem)
  · intro d hd
    unfold sendRPC at hd
    cases hg : RoutingTable.getNode rt m.receiver with
    | none => rw [hg] at hd; cases hd
    | some n =>
      rw [hg] at hd
      obtain ⟨hmem, hid⟩ := getNode_some_mem rt m.receiver n hg
      have hdd : d = ⟨n.ip, n.port, serializeRPC m⟩ := (Option.some.inj hd).symm
      exact ⟨n, hmem, hid, by rw [hdd], by rw [hdd]⟩

/-- Routing table for the C9 witness: one peer `80…00 @ 9.9.9.9:1234` in
bucket 0 of a table whose local id is `00…00`. -/
def c9TableW : RoutingTable :=
  ⟨List.replicate 20 0, [[⟨128 :: List.replicate 19 0, "9.9.9.9", 1234, 0⟩]]⟩

/-- A PING addressed to the stored peer `80…00`. -/
def c9MsgHitW : RPCMessage :=
  ⟨RPCType.PING, List.replicate 20 0, 128 :: List.replicate 19 0, "127.0.0.1", 4000, []⟩

/-- A PING addressed to the absent peer `01 00…00`. -/
def c9MsgMissW : RPCMessage :=
  ⟨RPCType.PING, List.replicate 20 0, 1 :: List.replicate 19 0, "127.0.0.1", 4000, []⟩

/-- Witness for C9: the unknown receiver yields no send at all, and the known
receiver's datagram goes to the stored peer's `9.9.9.9:1234`. -/
theorem C9_sendRPC_requires_known_peer_witness :
    sendRPC c9TableW c9MsgMissW = none ∧
    (∃ n, n ∈ c9TableW.getAllNodes ∧ n.id = c9MsgHitW.receiver ∧
      (Datagram.mk "9.9.9.9" 1234 (serializeRPC c9MsgHitW)).destIP = n.ip ∧
      (Datagram.mk "9.9.9.9" 1234 (serializeRPC c9MsgHitW)).destPort = n.port) :=
  ⟨(C9_sendRPC_requires_known_peer c9TableW c9MsgMissW).1 (by decide),
   (C9_sendRPC_requires_known_peer c9TableW c9MsgHitW).2
     (Datagram.mk "9.9.9.9" 1234 (serializeRPC c9MsgHitW)) (by rfl)⟩

end kademlia

namespace kademlia

/-- `Kademlia::nodeLookup` from `kademlia.cpp`, deterministic core: take the
`ALPHA = 3` closest locally known peers; fail on an empty table; otherwise
send one round of FIND_NODE queries (fire-and-forget — replies are never
merged) and immediately report success with those same `ALPHA` peers
(`kClosestNodes` is initialised to `closestNodes` and never updated). -/
def nodeLookup (rt : RoutingTable) (target : List Nat) : Bool × List Node :=
  let ALPHA := 3
  let closestNodes := rt.findClosestNodes target ALPHA
  if closestNodes.isEmpty then (false, [])
  else (true, closestNodes)

/-- Routing table for the C4 evidence: local id `00…00` and four peers in
buckets 0–3. -/
def c4TableW : RoutingTable :=
  ⟨List.replicate 20 0,
   [[⟨128 :: List.replicate 19 0, "a", 1, 0⟩],
    [⟨64 :: List.replicate 19 0, "b", 2, 0⟩],
    [⟨32 :: List.replicate 19 0, "c", 3, 0⟩],
    [⟨16 :: List.replicate 19 0, "d", 4, 0⟩]]⟩

/-- C4 evidence: `nodeLookup` stops after its single round.  In general it
never reports more than `ALPHA = 3` peers, so on a table of 4 peers it
reports success with 3 peers although the K closest peers seen are all
`min(K, 4) = 4` of them — there is no iteration, no merging of replies, and
no improvement-based termination test. -/
theorem C4_node_lookup_single_round :
    (∀ (rt : RoutingTable) (target : List Nat),
      (nodeLookup rt target).2.length ≤ 3) ∧
    (nodeLookup c4TableW (List.replicate 20 0)).1 = true ∧
    (nodeLookup c4TableW (List.replicate 20 0)).2.length = 3 ∧
    c4TableW.getAllNodes.length = 4 ∧
    min K_VALUE c4TableW.getAllNodes.length = 4 := by
  refine ⟨?_, by decide, by decide, by decide, by decide⟩
  intro rt target
  unfold nodeLookup
  by_cases h : (rt.findClosestNodes target 3).isEmpty
  · simp [h]
  · simp only [h, Bool.false_eq_true, if_false]
    unfold RoutingTable.findClosestNodes
    by_cases hgt : (sortNodesByDistance rt.buckets.flatten target).length > 3
    · simp only [hgt, if_true, gt_iff_lt, List.length_take]
      omega
    · simp only [hgt, if_false]
      omega

end kademlia

namespace kademlia

/-- The hex-digit value accepted by `std::stoi(·, nullptr, 16)`:
`'0'`–`'9'` (48–57), `'a'`–`'f'` (97–102), `'A'`–`'F'` (65–70). -/
def hexVal (c : Char) : Option Nat :=
  if 48 ≤ c.toNat ∧ c.toNat ≤ 57 then some (c.toNat - 48)
  else if 97 ≤ c.toNat ∧ c.toNat ≤ 102 then some (c.toNat - 87)
  else if 65 ≤ c.toNat ∧ c.toNat ≤ 70 then some (c.toNat - 55)
  else none

/-- The whitespace skipped by `std::stoi` (C locale `isspace`): space (32),
tab (9), line feed (10), vertical tab (11), form feed (12), carriage return
(13). -/
def isSpaceChar (c : Char) : Bool :=
  c.toNat == 32 || (9 ≤ c.toNat && c.toNat ≤ 13)

/-- `std::stoi(s, nullptr, 16)` on a two-character string, as invoked by the
`NodeID` hex constructor (`node.cpp`): skip optional leading whitespace or a
sign, convert the longest hex-digit prefix, and throw `std::invalid_argument`
(`none`) only when no digit is found — a trailing non-hex character is
silently ignored. -/
def stoiPair16 (c1 c2 : Char) : Option Int :=
  match hexVal c1 with
  | some v1 =>
    match hexVal c2 with
    | some v2 => some ((16 * v1 + v2 : Nat) : Int)
    | none => some ((v1 : Nat) : Int)
  | none =>
    if c1 == '+' then (hexVal c2).map (fun v => (v : Int))
    else if c1 == '-' then (hexVal c2).map (fun v => -(v : Int))
    else if isSpaceChar c1 then (hexVal c2).map (fun v => (v : Int))
    else none

/-- `static_cast<uint8_t>` of an `int`: reduction mod 256. -/
def toUInt8Cast (i : Int) : Nat := (i % 256).toNat

/-- The parsing loop of the `NodeID` hex constructor: one byte per
two-character pair; a throwing pair aborts the construction. -/
def parseHexPairs : List Char → Option (List Nat)
  | [] => some []
  | c1 :: c2 :: rest =>
    match stoiPair16 c1 c2 with
    | some v => (parseHexPairs rest).map (fun bs => toUInt8Cast v :: bs)
    | none => none
  | [_] => none

/-- `NodeID::NodeID(const std::string&)` from `node.cpp`: reject any length
other than 40, then parse the 20 pairs. -/
def NodeID.ofHex (hex : List Char) : Option (List Nat) :=
  if hex.length ≠ KEY_BYTES * 2 then none
  else parseHexPairs hex

/-- Reference reading of an all-hex-digit string: byte `16*hi + lo` per
pair. -/
def hexPairsRef : List Char → List Nat
  | c1 :: c2 :: rest =>
    (16 * (hexVal c1).getD 0 + (hexVal c2).getD 0) :: hexPairsRef rest
  | _ => []

/-- Hex digits are below 16. -/
theorem hexVal_lt (c : Char) (v : Nat) (h : hexVal c = some v) : v < 16 := by
  unfold hexVal at h
  split_ifs at h <;> (injection h with h; omega)

end kademlia

namespace kademlia

/-- On an even-length all-hex-digit string, the parsing loop succeeds and
yields the reference bytes. -/
theorem parseHexPairs_all_hex : ∀ (s : List Char),
    (∀ c ∈ s, (hexVal c).isSome) → s.length % 2 = 0 →
    parseHexPairs s = some (hexPairsRef s)
  | [] => by
    intro _ _
    rfl
  | [c] => by
    intro _ h
    simp at h
  | c1 :: c2 :: rest => by
    intro hall hlen
    obtain ⟨v1, hv1⟩ := Option.isSome_iff_exists.mp (hall c1 (by simp))
    obtain ⟨v2, hv2⟩ := Option.isSome_iff_exists.mp (hall c2 (by simp))
    have hrec := parseHexPairs_all_hex rest
      (fun c hc => hall c (by simp [hc])) (by simp at hlen ⊢; omega)
    have hst : stoiPair16 c1 c2 = some ((16 * v1 + v2 : Nat) : Int) := by
      unfold stoiPair16
      rw [hv1, hv2]
    have hb1 := hexVal_lt c1 v1 hv1
    have hb2 := hexVal_lt c2 v2 hv2
    have hcast : toUInt8Cast ((16 * v1 + v2 : Nat) : Int) = 16 * v1 + v2 := by
      unfold toUInt8Cast
      omega
    have hcast2 : toUInt8Cast (16 * (v1 : Int) + (v2 : Int)) = 16 * v1 + v2 := by
      unfold toUInt8Cast
      omega
    have hstep : parseHexPairs (c1 :: c2 :: rest)
        = (parseHexPairs rest).map
          (fun bs => toUInt8Cast ((16 * v1 + v2 : Nat) : Int) :: bs) := by
      rw [show parseHexPairs (c1 :: c2 :: rest)
          = (match stoiPair16 c1 c2 with
             | some w => (parseHexPairs rest).map (fun bs => toUInt8Cast w :: bs)
             | none => none) from rfl]
      rw [hst]
    rw [hstep, hrec]
    have hrefs : hexPairsRef (c1 :: c2 :: rest)
        = (16 * (hexVal c1).getD 0 + (hexVal c2).getD 0) :: hexPairsRef rest := rfl
    rw [hrefs, hv1, hv2]
    simp [hcast, hcast2]

/-- The parsing loop fails exactly when some two-character pair fails
`std::stoi`. -/
theorem parseHexPairs_none_iff : ∀ (n : Nat) (s : List Char), s.length = 2 * n →
    (parseHexPairs s = none ↔
      ∃ i, i < n ∧ stoiPair16 (s.getD (2 * i) ' ') (s.getD (2 * i + 1) ' ') = none) := by
  intro n
  induction n with
  | zero =>
    intro s hs
    have hnil : s = [] := List.eq_nil_of_length_eq_zero (by omega)
    subst hnil
    simp [parseHexPairs]
  | succ n ih =>
    intro s hs
    cases s with
    | nil => simp at hs
    | cons c1 s' =>
      cases s' with
      | nil => simp at hs; omega
      | cons c2 rest =>
        have hrl : rest.length = 2 * n := by
          simp at hs
          omega
        have hdef : parseHexPairs (c1 :: c2 :: rest)
            = (match stoiPair16 c1 c2 with
               | some w => (parseHexPairs rest).map (fun bs => toUInt8Cast w :: bs)
               | none => none) := rfl
        cases hst : stoiPair16 c1 c2 with
        | none =>
          constructor
          · intro _
            exact ⟨0, by omega, by simpa using hst⟩
          · intro _
            rw [hdef, hst]
        | some v =>
          have hstep : parseHexPairs (c1 :: c2 :: rest)
              = (parseHexPairs rest).map (fun bs => toUInt8Cast v :: bs) := by
            rw [hdef, hst]
          have hmap : (parseHexPairs rest).map (fun bs => toUInt8Cast v :: bs) = none
              ↔ parseHexPairs rest = none := by
            cases parseHexPairs rest <;> simp
          rw [hstep, hmap, ih rest hrl]
          constructor
          · rintro ⟨i, hi, hfail⟩
            refine ⟨i + 1, by omega, ?_⟩
            have e1 : 2 * (i + 1) = (2 * i + 1) + 1 := by omega
            rw [e1]
            simp only [List.getD_cons_succ]
            exact hfail
          · rintro ⟨i, hi, hfail⟩
            cases i with
            | zero =>
              simp only [Nat.mul_zero, List.getD_cons_zero, Nat.zero_add,
                List.getD_cons_succ] at hfail
              rw [hfail] at hst
              cases hst
            | succ i =>
              refine ⟨i, by omega, ?_⟩
              have e1 : 2 * (i + 1) = (2 * i + 1) + 1 := by omega
              rw [e1] at hfail
              simp only [List.getD_cons_succ] at hfail
              exact hfail

end kademlia

namespace kademlia

/-- Counterexample for C7: the 40-character string `"0z0z…0z"` contains the
non-hex character `'z'` twenty times, yet the constructor succeeds (each
`std::stoi("0z", nullptr, 16)` parses the leading `'0'` and ignores the
`'z'`), yielding the all-zero id instead of an InvalidHex failure. -/
theorem C7_hex_parse_counterexample :
    NodeID.ofHex "0z0z0z0z0z0z0z0z0z0z0z0z0z0z0z0z0z0z0z0z".toList
      = some (List.replicate 20 0) ∧
    hexVal 'z' = none ∧
    'z' ∈ "0z0z0z0z0z0z0z0z0z0z0z0z0z0z0z0z0z0z0z0z".toList := by decide

/-- C7 (amended): the hex constructor fails on any length other than 40; on a
40-character all-hex-digit string it succeeds case-insensitively with the
parsed hex pairs; and on 40 characters it fails exactly when some
two-character pair fails `std::stoi` — which happens precisely when the
pair's first character is not a hex digit and either the second character is
not a hex digit or the first is not a sign or whitespace.  (A non-hex
character in the second position after a hex digit is ignored, not
rejected.) -/
theorem C7_hex_parse_amended (s : List Char) :
    (s.length ≠ 40 → NodeID.ofHex s = none) ∧
    (s.length = 40 → (∀ c ∈ s, (hexVal c).isSome) →
      NodeID.ofHex s = some (hexPairsRef s)) ∧
    (s.length = 40 →
      (NodeID.ofHex s = none ↔
        ∃ i, i < 20 ∧
          stoiPair16 (s.getD (2 * i) ' ') (s.getD (2 * i + 1) ' ') = none)) ∧
    (∀ c1 c2 : Char, stoiPair16 c1 c2 = none ↔
      (hexVal c1 = none ∧
        (hexVal c2 = none ∨
          (c1 ≠ '+' ∧ c1 ≠ '-' ∧ isSpaceChar c1 = false)))) := by
  have h40 : KEY_BYTES * 2 = 40 := rfl
  refine ⟨?_, ?_, ?_, ?_⟩
  · intro h
    unfold NodeID.ofHex
    rw [h40, if_pos h]
  · intro hlen hall
    unfold NodeID.ofHex
    rw [h40, if_neg (by omega)]
    exact parseHexPairs_all_hex s hall (by omega)
  · intro hlen
    unfold NodeID.ofHex
    rw [h40, if_neg (by omega)]
    exact parseHexPairs_none_iff 20 s (by omega)
  · intro c1 c2
    unfold stoiPair16
    cases h1 : hexVal c1 with
    | some v1 => cases h2 : hexVal c2 <;> simp
    | none => cases h2 : hexVal c2 <;> split_ifs with ha hb hc <;> simp_all

/-- Witness for C7's amended claim: a 40-digit mixed-case hex string parses
to its hex pairs. -/
theorem C7_hex_parse_amended_witness :
    NodeID.ofHex "00112233445566778899aAbBcCdDeEfF00112233".toList
      = some (hexPairsRef "00112233445566778899aAbBcCdDeEfF00112233".toList) ∧
    hexPairsRef "00112233445566778899aAbBcCdDeEfF00112233".toList
      = [0, 17, 34, 51, 68, 85, 102, 119, 136, 153,
         170, 187, 204, 221, 238, 255, 0, 17, 34, 51] :=
  ⟨(C7_hex_parse_amended "00112233445566778899aAbBcCdDeEfF00112233".toList).2.1
      (by decide) (by decide),
   by decide⟩

end kademlia

namespace kademlia

/-- `STUN_MAGIC_COOKIE` from `holepunch.cpp`. -/
def STUN_MAGIC_COOKIE : Nat := 0x2112A442

/-- `inet_ntop(AF_INET, htonl(addr))`: dotted-quad text of a 32-bit address,
most significant byte first. -/
def ipv4String (a : Nat) : String :=
  toString ((a >>> 24) % 256) ++ "." ++ toString ((a >>> 16) % 256) ++ "."
    ++ toString ((a >>> 8) % 256) ++ "." ++ toString (a % 256)

/-- Oring a `k`-shifted value with a value below `2^k` is addition. -/
theorem or_shift_add (h l k : Nat) (hl : l < 2 ^ k) :
    (h <<< k) ||| l = h * 2 ^ k + l := by
  rw [Nat.shiftLeft_eq, Nat.mul_comm h (2 ^ k)]
  exact (Nat.mul_add_lt_is_or hl h).symm

/-- Recomposing the two big-endian bytes of a 16-bit value. -/
theorem be16_or (v : Nat) (hv : v < 65536) :
    ((v / 256 % 256) <<< 8) ||| (v % 256) = v := by
  rw [or_shift_add _ _ 8 (by omega)]
  have h28 : (2 : Nat) ^ 8 = 256 := by norm_num
  rw [h28]
  omega

/-- Recomposing the four big-endian bytes of a 32-bit value, associated the
way `parseStunResponse` ors them. -/
theorem be32_or (v : Nat) (hv : v < 4294967296) :
    ((v / 16777216 % 256) <<< 24) ||| ((v / 65536 % 256) <<< 16)
      ||| ((v / 256 % 256) <<< 8) ||| (v % 256) = v := by
  have h28 : (2 : Nat) ^ 8 = 256 := by norm_num
  have h216 : (2 : Nat) ^ 16 = 65536 := by norm_num
  have h224 : (2 : Nat) ^ 24 = 16777216 := by norm_num
  rw [Nat.lor_assoc, Nat.lor_assoc]
  rw [or_shift_add _ _ 8 (by omega)]
  rw [or_shift_add _ _ 16 (by rw [h216]; rw [h28] at *; omega)]
  rw [or_shift_add _ _ 24 (by rw [h224]; rw [h28, h216] at *; omega)]
  rw [h28, h216, h224]
  omega

end kademlia

namespace kademlia

/-- The TLV attribute loop of `parseStunResponse` (`holepunch.cpp`).
State: remaining bytes `rem` (the response from position `pos` on) and
`consumed = pos - 20`; `msgLen` is the decoded header length.  The loop runs
while at least 4 bytes remain (`pos + 4 <= size`) and `consumed < msgLen`;
otherwise it falls out and the function returns `false` (`none`).  An
XOR-MAPPED-ADDRESS (0x0020) or MAPPED-ADDRESS (0x0001) attribute of IPv4
family and length ≥ 8 returns the decoded endpoint; other attributes are
skipped over their length plus padding to a 4-byte boundary, while the two
address attribute types, when skipped for family or length reasons, advance
by their bare length (the source skips their padding — a faithful detail).
`fuel` bounds the iteration count: every iteration consumes at least 4 bytes
of `rem`, so the top-level call's `fuel = response.length + 1` can never be
exhausted before one of the source loop's own exits fires. -/
def stunAttrWalk (msgLen : Nat) : Nat → List Nat → Nat → Option (String × Nat)
  | 0, _, _ => none
  | fuel + 1, t1 :: t2 :: l1 :: l2 :: rest, consumed =>
    if consumed < msgLen then
      if ((l1 <<< 8) ||| l2) % 65536 > rest.length then none
      else if ((t1 <<< 8) ||| t2) % 65536 = 32 then
        if ((l1 <<< 8) ||| l2) % 65536 < 8 then
          stunAttrWalk msgLen fuel (rest.drop (((l1 <<< 8) ||| l2) % 65536))
            (consumed + 4 + ((l1 <<< 8) ||| l2) % 65536)
        else if rest.getD 1 0 ≠ 1 then
          stunAttrWalk msgLen fuel (rest.drop (((l1 <<< 8) ||| l2) % 65536))
            (consumed + 4 + ((l1 <<< 8) ||| l2) % 65536)
        else
          some (ipv4String (((((rest.getD 4 0) <<< 24) ||| ((rest.getD 5 0) <<< 16)
              ||| ((rest.getD 6 0) <<< 8) ||| rest.getD 7 0) ^^^ STUN_MAGIC_COOKIE)
              % 4294967296),
            ((((rest.getD 2 0) <<< 8) ||| rest.getD 3 0)
              ^^^ (STUN_MAGIC_COOKIE >>> 16)) % 65536)
      else if ((t1 <<< 8) ||| t2) % 65536 = 1 then
        if ((l1 <<< 8) ||| l2) % 65536 < 8 then
          stunAttrWalk msgLen fuel (rest.drop (((l1 <<< 8) ||| l2) % 65536))
            (consumed + 4 + ((l1 <<< 8) ||| l2) % 65536)
        else if rest.getD 1 0 ≠ 1 then
          stunAttrWalk msgLen fuel (rest.drop (((l1 <<< 8) ||| l2) % 65536))
            (consumed + 4 + ((l1 <<< 8) ||| l2) % 65536)
        else
          some (ipv4String ((((rest.getD 4 0) <<< 24) ||| ((rest.getD 5 0) <<< 16)
              ||| ((rest.getD 6 0) <<< 8) ||| rest.getD 7 0) % 4294967296),
            (((rest.getD 2 0) <<< 8) ||| rest.getD 3 0) % 65536)
      else
        stunAttrWalk msgLen fuel
          (rest.drop (((l1 <<< 8) ||| l2) % 65536
            + (if ((l1 <<< 8) ||| l2) % 65536 % 4 ≠ 0
               then 4 - ((l1 <<< 8) ||| l2) % 65536 % 4 else 0)))
          (consumed + 4 + ((l1 <<< 8) ||| l2) % 65536
            + (if ((l1 <<< 8) ||| l2) % 65536 % 4 ≠ 0
               then 4 - ((l1 <<< 8) ||| l2) % 65536 % 4 else 0))
    else none
  | _ + 1, _, _ => none

/-- `parseStunResponse` from `holepunch.cpp`: check size, binding-success
type 0x0101 and magic cookie, then walk the attributes. -/
def parseStunResponse (response : List Nat) : Option (String × Nat) :=
  if response.length < 20 then none
  else if (((response.getD 0 0) <<< 8) ||| response.getD 1 0) % 65536 ≠ 0x0101 then
    none
  else if ((((response.getD 4 0) <<< 24) ||| ((response.getD 5 0) <<< 16)
      ||| ((response.getD 6 0) <<< 8) ||| response.getD 7 0) % 4294967296)
      ≠ STUN_MAGIC_COOKIE then none
  else
    stunAttrWalk ((((response.getD 2 0) <<< 8) ||| response.getD 3 0) % 65536)
      (response.length + 1) (response.drop 20) 0

/-- The two big-endian bytes of a 16-bit value. -/
def be16 (v : Nat) : List Nat := [v / 256 % 256, v % 256]

/-- The four big-endian bytes of a 32-bit value. -/
def be32 (v : Nat) : List Nat :=
  [v / 16777216 % 256, v / 65536 % 256, v / 256 % 256, v % 256]

/-- An XOR-MAPPED-ADDRESS attribute (RFC 5389 §15.2) encoding address `a`
and port `p`: type 0x0020, length 8, family IPv4, port XOR high16(cookie),
address XOR cookie. -/
def xorMappedAttr (a p : Nat) : List Nat :=
  [0x00, 0x20, 0x00, 0x08, 0x00, 0x01]
    ++ be16 (p ^^^ (STUN_MAGIC_COOKIE >>> 16)) ++ be32 (a ^^^ STUN_MAGIC_COOKIE)

/-- A binding-success response: type 0x0101, 16-bit length, magic cookie,
96-bit transaction id, then the attribute bytes. -/
def stunResponse (msgLen : Nat) (txn attrs : List Nat) : List Nat :=
  [0x01, 0x01] ++ be16 msgLen ++ [0x21, 0x12, 0xA4, 0x42] ++ txn ++ attrs

/-- A well-formed attribute the parser must step over: any type other than
XOR-MAPPED-ADDRESS (0x0020) and MAPPED-ADDRESS (0x0001), with its value
padded to a 4-byte boundary. -/
def skippableAttr (l : List Nat) : Prop :=
  ∃ t1 t2 l1 l2 body, l = t1 :: t2 :: l1 :: l2 :: body ∧
    t1 < 256 ∧ t2 < 256 ∧ l1 < 256 ∧ l2 < 256 ∧
    ((t1 <<< 8) ||| t2) % 65536 ≠ 32 ∧ ((t1 <<< 8) ||| t2) % 65536 ≠ 1 ∧
    body.length = (l1 * 256 + l2) + ((4 - (l1 * 256 + l2) % 4) % 4)

end kademlia

namespace kademlia

/-- One iteration of the attribute loop steps over a skippable attribute,
advancing past its value and padding. -/
theorem stunAttrWalk_skip_step (msgLen fuel consumed : Nat)
    (t1 t2 l1 l2 : Nat) (body tail : List Nat)
    (hl1 : l1 < 256) (hl2 : l2 < 256)
    (ht20 : ((t1 <<< 8) ||| t2) % 65536 ≠ 32)
    (ht1 : ((t1 <<< 8) ||| t2) % 65536 ≠ 1)
    (hbody : body.length = (l1 * 256 + l2) + ((4 - (l1 * 256 + l2) % 4) % 4))
    (hcons : consumed < msgLen) :
    stunAttrWalk msgLen (fuel + 1) (t1 :: t2 :: l1 :: l2 :: (body ++ tail)) consumed
      = stunAttrWalk msgLen fuel tail (consumed + (4 + body.length)) := by
  have h28 : (2 : Nat) ^ 8 = 256 := by norm_num
  have hAL : ((l1 <<< 8) ||| l2) % 65536 = l1 * 256 + l2 := by
    rw [or_shift_add _ _ 8 (by omega)]
    rw [h28]
    omega
  simp only [stunAttrWalk]
  rw [if_pos hcons, hAL]
  rw [if_neg (by rw [List.length_append]; omega)]
  rw [if_neg ht20, if_neg ht1]
  have hpad : (if (l1 * 256 + l2) % 4 ≠ 0 then 4 - (l1 * 256 + l2) % 4 else 0)
      = (4 - (l1 * 256 + l2) % 4) % 4 := by
    split_ifs with h
    · omega
    · omega
  rw [hpad]
  rw [show l1 * 256 + l2 + (4 - (l1 * 256 + l2) % 4) % 4 = body.length from hbody.symm]
  rw [List.drop_left]
  congr 1
  omega

end kademlia

namespace kademlia

/-- Skippable attributes occupy at least their 4-byte header. -/
theorem skippable_length_ge (f : List Nat) (hf : skippableAttr f) : 4 ≤ f.length := by
  obtain ⟨t1, t2, l1, l2, body, hfe, _⟩ := hf
  subst hfe
  simp

/-- The attribute loop steps over any run of skippable attributes. -/
theorem stunAttrWalk_skip_all (msgLen : Nat) :
    ∀ (fs : List (List Nat)), (∀ f ∈ fs, skippableAttr f) →
    ∀ (fuel : Nat) (tail : List Nat) (consumed : Nat),
      consumed + fs.flatten.length < msgLen →
      stunAttrWalk msgLen (fuel + fs.length) (fs.flatten ++ tail) consumed
        = stunAttrWalk msgLen fuel tail (consumed + fs.flatten.length) := by
  intro fs
  induction fs with
  | nil =>
    intro _ fuel tail consumed _
    simp
  | cons f fs ih =>
    intro hall fuel tail consumed hlt
    obtain ⟨t1, t2, l1, l2, body, hfe, h1, h2, h3, h4, h5, h6, h7⟩ := hall f (by simp)
    have hflat : ((f :: fs).flatten).length = f.length + fs.flatten.length := by
      simp
    subst hfe
    rw [List.flatten_cons, List.append_assoc]
    simp only [List.cons_append]
    rw [List.length_cons, show fuel + (fs.length + 1) = (fuel + fs.length) + 1 by omega]
    rw [stunAttrWalk_skip_step msgLen (fuel + fs.length) consumed t1 t2 l1 l2 body
      (fs.flatten ++ tail) h3 h4 h5 h6 h7
      (by simp only [List.flatten_cons, List.length_append] at hlt; omega)]
    rw [ih (fun g hg => hall g (by simp [hg])) fuel tail (consumed + (4 + body.length))
      (by
        simp only [List.flatten_cons, List.length_append, List.length_cons] at hlt
        omega)]
    congr 1
    simp only [List.flatten_cons, List.length_append, List.length_cons]
    omega

/-- The attribute loop decodes an XOR-MAPPED-ADDRESS attribute at the front
of the remaining bytes back to the encoded address and port. -/
theorem stunAttrWalk_xor_hit (msgLen fuel consumed a p : Nat)
    (ha : a < 4294967296) (hp : p < 65536) (hcons : consumed < msgLen) :
    stunAttrWalk msgLen (fuel + 1) (xorMappedAttr a p) consumed
      = some (ipv4String a, p) := by
  have h216 : (2 : Nat) ^ 16 = 65536 := by norm_num
  have h232 : (2 : Nat) ^ 32 = 4294967296 := by norm_num
  have hpx : p ^^^ (STUN_MAGIC_COOKIE >>> 16) < 65536 := by
    rw [← h216]
    exact Nat.xor_lt_two_pow (by rw [h216]; exact hp) (by decide)
  have hax : a ^^^ STUN_MAGIC_COOKIE < 4294967296 := by
    rw [← h232]
    exact Nat.xor_lt_two_pow (by rw [h232]; exact ha) (by decide)
  simp only [xorMappedAttr, be16, be32, List.cons_append, List.nil_append]
  simp only [stunAttrWalk]
  rw [if_pos hcons]
  rw [if_neg (by
    show ¬ (((0 <<< 8) ||| 8) % 65536 > (8 : Nat))
    decide)]
  rw [if_pos (by decide : ((0 <<< 8) ||| 32) % 65536 = 32)]
  rw [if_neg (by decide : ¬ ((0 <<< 8) ||| 8) % 65536 < 8)]
  rw [if_neg (by
    show ¬ ((1 : Nat) ≠ 1)
    decide)]
  show some
      (ipv4String (((((a ^^^ STUN_MAGIC_COOKIE) / 16777216 % 256) <<< 24
          ||| ((a ^^^ STUN_MAGIC_COOKIE) / 65536 % 256) <<< 16
          ||| ((a ^^^ STUN_MAGIC_COOKIE) / 256 % 256) <<< 8
          ||| (a ^^^ STUN_MAGIC_COOKIE) % 256) ^^^ STUN_MAGIC_COOKIE) % 4294967296),
       (((((p ^^^ (STUN_MAGIC_COOKIE >>> 16)) / 256 % 256) <<< 8
          ||| (p ^^^ (STUN_MAGIC_COOKIE >>> 16)) % 256)
          ^^^ (STUN_MAGIC_COOKIE >>> 16)) % 65536))
    = some (ipv4String a, p)
  rw [be16_or _ hpx, be32_or _ hax]
  rw [Nat.xor_cancel_right, Nat.xor_cancel_right]
  rw [Nat.mod_eq_of_lt hp, Nat.mod_eq_of_lt ha]

end kademlia

namespace kademlia

/-- Header handling of `parseStunResponse` on a well-formed binding-success
response: the size, type and cookie checks pass and the attribute walk starts
at the attribute bytes with the decoded message length. -/
theorem parseStun_header (M : Nat) (txn attrs : List Nat)
    (htxn : txn.length = 12) (hM : M < 65536) :
    parseStunResponse (stunResponse M txn attrs)
      = stunAttrWalk M (20 + attrs.length + 1) attrs 0 := by
  have hresp : stunResponse M txn attrs
      = 1 :: 1 :: (M / 256 % 256) :: (M % 256) :: 33 :: 18 :: 164 :: 66
        :: (txn ++ attrs) := by
    simp [stunResponse, be16]
  have hlen : (1 :: 1 :: (M / 256 % 256) :: (M % 256) :: 33 :: 18 :: 164 :: 66
      :: (txn ++ attrs)).length = 20 + attrs.length := by
    simp [List.length_append, htxn]
    omega
  have hdrop : (1 :: 1 :: (M / 256 % 256) :: (M % 256) :: 33 :: 18 :: 164 :: 66
      :: (txn ++ attrs)).drop 20 = attrs := by
    show (txn ++ attrs).drop 12 = attrs
    rw [← htxn, List.drop_left]
  have hm : ((((1 :: 1 :: (M / 256 % 256) :: (M % 256) :: 33 :: 18 :: 164 :: 66
      :: (txn ++ attrs)).getD 2 0) <<< 8)
      ||| (1 :: 1 :: (M / 256 % 256) :: (M % 256) :: 33 :: 18 :: 164 :: 66
      :: (txn ++ attrs)).getD 3 0) % 65536 = M := by
    show (((M / 256 % 256) <<< 8) ||| (M % 256)) % 65536 = M
    rw [be16_or M hM]
    omega
  rw [hresp]
  unfold parseStunResponse
  rw [if_neg (by rw [hlen]; omega)]
  rw [if_neg (by
    show ¬ ((((1 : Nat) <<< 8) ||| 1) % 65536 ≠ 0x0101)
    decide)]
  rw [if_neg (by
    show ¬ (((((33 : Nat) <<< 24) ||| (18 <<< 16) ||| (164 <<< 8) ||| 66)
      % 4294967296) ≠ STUN_MAGIC_COOKIE)
    decide)]
  rw [hm, hlen, hdrop]

/-- A run of skippable attributes has at least one byte per attribute. -/
theorem skippable_count_le (fs : List (List Nat)) (hf : ∀ f ∈ fs, skippableAttr f) :
    fs.length ≤ fs.flatten.length := by
  induction fs with
  | nil => simp
  | cons f fs ih =>
    have h4 := skippable_length_ge f (hf f (by simp))
    have hr := ih (fun g hg => hf g (by simp [hg]))
    simp only [List.length_cons, List.flatten_cons, List.length_append]
    omega

/-- C8: parsing is the inverse of XOR encoding.  For every IPv4 address `a`
and port `p`, a binding-success response (type 0x0101, correct magic cookie,
consistent length) whose attributes are any run of well-formed non-address
attributes (padded to 4-byte boundaries, correctly skipped) followed by an
XOR-MAPPED-ADDRESS attribute encoding `p XOR high16(cookie)` and
`a XOR cookie` parses to exactly `(a, p)`. -/
theorem C8_stun_parse_inverse (a p : Nat) (txn : List Nat)
    (fillers : List (List Nat))
    (ha : a < 4294967296) (hp : p < 65536) (htxn : txn.length = 12)
    (hf : ∀ f ∈ fillers, skippableAttr f)
    (hmsg : fillers.flatten.length + 12 < 65536) :
    parseStunResponse (stunResponse (fillers.flatten.length + 12) txn
      (fillers.flatten ++ xorMappedAttr a p)) = some (ipv4String a, p) := by
  have hxlen : (xorMappedAttr a p).length = 12 := by
    simp [xorMappedAttr, be16, be32]
  have hattrs : (fillers.flatten ++ xorMappedAttr a p).length
      = fillers.flatten.length + 12 := by
    rw [List.length_append, hxlen]
  have hcount := skippable_count_le fillers hf
  rw [parseStun_header _ _ _ htxn (by omega)]
  rw [hattrs]
  rw [show 20 + (fillers.flatten.length + 12) + 1
      = (fillers.flatten.length + 33 - fillers.length) + fillers.length by omega]
  rw [stunAttrWalk_skip_all _ fillers hf _ _ 0 (by omega)]
  rw [show fillers.flatten.length + 33 - fillers.length
      = (fillers.flatten.length + 32 - fillers.length) + 1 by omega]
  exact stunAttrWalk_xor_hit _ _ _ a p ha hp (by omega)

/-- Witness for C8: a response carrying a padded SOFTWARE attribute followed
by an XOR-MAPPED-ADDRESS attribute encoding `203.0.113.45:54321` parses to
exactly that endpoint. -/
theorem C8_stun_parse_inverse_witness :
    parseStunResponse (stunResponse
        ((([[128, 34, 0, 2, 65, 66, 0, 0]] : List (List Nat)).flatten).length + 12)
        (List.replicate 12 7)
        (([[128, 34, 0, 2, 65, 66, 0, 0]] : List (List Nat)).flatten
          ++ xorMappedAttr 3405803821 54321))
      = some (ipv4String 3405803821, 54321) ∧
    ipv4String 3405803821 = "203.0.113.45" :=
  ⟨C8_stun_parse_inverse 3405803821 54321 (List.replicate 12 7)
      [[128, 34, 0, 2, 65, 66, 0, 0]]
      (by decide) (by decide) (by decide)
      (by
        intro f hfm
        simp only [List.mem_singleton] at hfm
        subst hfm
        exact ⟨128, 34, 0, 2, [65, 66, 0, 0], rfl, by decide, by decide, by decide,
          by decide, by decide, by decide, by decide⟩)
      (by decide),
   by decide⟩

end kademlia
